/-
Verification of the `pymeasure` Keysight B2961A driver
(`pymeasure/instruments/keysight/keysightB2961A.py`).

The driver is a declarative table of `Instrument.control` / `Instrument.measurement`
properties plus three hand-written methods (`enable`, `disable`, `is_enabled`) and an
`__init__` that optionally configures a VISA adapter.  The generic property factory,
the validators and the adapter live outside the analysed file; they are modelled from
the specification (marked `Modelled from the spec:` below).  Everything that is in the
analysed file — the command strings, ranges, mappings, duplicate declarations, the
methods and the import list — is transcribed from the source.

Numbers are modelled as rationals.  The `%g` formatting of Python is modelled by an
executable 6-significant-digit decimal formatter (`fmtG`), computed on numerator and
denominator in ℕ so that the kernel can evaluate it; `float()` parsing is modelled by
an executable decimal parser (`parseFloat`).
-/
import Mathlib

deriving instance DecidableEq for Except

namespace KeysightB2961A

/-- Python values that appear as property values in the driver: strings, booleans
and (floating point, modelled as rational) numbers. -/
inductive PyVal where
  | str : String → PyVal
  | bool : Bool → PyVal
  | num : ℚ → PyVal
deriving DecidableEq, Repr

/-- Modelled from the spec: the error taxonomy of §7 (transport errors are out of
scope; `NameError` of the import-time model is handled separately). -/
inductive PyError where
  | ValidationError
  | UnknownResponseError
  | NotSupportedError
  | ValueError
deriving DecidableEq, Repr

/-- One `adapter.config(...)` call, with the keyword arguments used by the driver. -/
structure ConfigCall where
  is_binary : Bool
  datatype : String
  converter : String
  separator : String
deriving DecidableEq, Repr

/-- Modelled from the spec: the communication adapter, §3.  `write`/`query` log the
commands sent; `respond` is the canned response table of a mock adapter; `isVISA`
models `isinstance(adapter, VISAAdapter)`; `configCalls` logs `config(...)` calls. -/
structure Adapter where
  isVISA : Bool
  writes : List String
  queries : List String
  respond : String → String
  configCalls : List ConfigCall

/-- Modelled from the spec: `write(str) -> None` appends the command to the wire log. -/
def Adapter.write (a : Adapter) (cmd : String) : Adapter :=
  { a with writes := a.writes ++ [cmd] }

/-- Modelled from the spec: `query(str) -> str` logs the command and returns the
mock response. -/
def Adapter.query (a : Adapter) (cmd : String) : Adapter × String :=
  ({ a with queries := a.queries ++ [cmd] }, a.respond cmd)

/-- Modelled from the spec: the one-time `config(...)` framing call. -/
def Adapter.config (a : Adapter) (c : ConfigCall) : Adapter :=
  { a with configCalls := a.configCalls ++ [c] }

/-- The `values` argument of a property: either a numeric `[min, max]` range or a
mapping from semantic values to wire tokens. -/
inductive Values where
  | range : ℚ → ℚ → Values
  | mapping : List (PyVal × String) → Values
deriving DecidableEq, Repr

/-- Which validator function the source passes as `validator=`. -/
inductive Validator where
  | truncatedRange
  | strictDiscreteSet
deriving DecidableEq, Repr

/-- Modelled from the spec: `truncated_range` from `pymeasure.instruments.validators`
(not in the analysed file) silently clamps an out-of-range numeric value to the
nearest bound and never rejects. -/
def truncated_range (v : PyVal) (vs : Values) : Except PyError PyVal :=
  match v, vs with
  | .num q, .range lo hi => .ok (.num (max lo (min hi q)))
  | _, _ => .error .ValidationError

/-- Modelled from the spec: `strict_discrete_set` (the name the source references
without importing it; the function itself lives in `pymeasure.instruments.validators`)
accepts a value exactly when it is a key of the discrete set and raises
`ValidationError` otherwise. -/
def strict_discrete_set (v : PyVal) (vs : Values) : Except PyError PyVal :=
  match vs with
  | .mapping m => if m.any (fun e => e.1 == v) then .ok v else .error .ValidationError
  | .range _ _ => .error .ValidationError

/-- Dispatch a validator name to its function. -/
def Validator.apply : Validator → PyVal → Values → Except PyError PyVal
  | .truncatedRange, v, vs => truncated_range v vs
  | .strictDiscreteSet, v, vs => strict_discrete_set v vs

/-- The response cast of a property.  The source passes `cast=bool` on three
measurements; all other properties use the framework default, a float cast. -/
inductive Cast where
  | float
  | bool
deriving DecidableEq, Repr

/-- The immutable metadata of one `control` / `measurement` property (§3 of the
spec: query command, write command, docstring, validator, allowed values,
value mapping flag, response cast). -/
structure Property where
  get_command : Option String
  set_command : Option String
  docs : String
  validator : Option Validator
  values : Option Values
  map_values : Bool
  cast : Cast
deriving DecidableEq, Repr

/-- `Instrument.control(get_command, set_command, docs, validator=…, values=…,
map_values=…)`: a read-write property.  The response cast is the framework default. -/
def Instrument.control (get_command set_command docs : String)
    (validator : Option Validator) (values : Option Values) (map_values : Bool) :
    Property :=
  ⟨some get_command, some set_command, docs, validator, values, map_values, Cast.float⟩

/-- `Instrument.measurement(get_command, docs, cast=…)`: a read-only property.
Where the source omits `cast`, the framework default float cast is passed. -/
def Instrument.measurement (get_command docs : String) (cast : Cast) : Property :=
  ⟨some get_command, none, docs, none, none, false, cast⟩

/- ---------------------------------------------------------------------------
Digit-level machinery: decimal digits, `%g` formatting and `float()` parsing.
--------------------------------------------------------------------------- -/

/-- Decimal digits of `n`, least significant first; `[]` for `0`.  Fuelled so that
the kernel can evaluate it (`fuel ≥ n` suffices). -/
def natDigitsRevAux (fuel n : ℕ) : List ℕ :=
  match fuel with
  | 0 => []
  | f + 1 => if n = 0 then [] else (n % 10) :: natDigitsRevAux f (n / 10)

/-- Decimal digits of `n`, least significant first. -/
def natDigitsRev (n : ℕ) : List ℕ := natDigitsRevAux n n

/-- Decimal digits of `n`, most significant first; `[]` for `0`. -/
def natDigits (n : ℕ) : List ℕ := (natDigitsRev n).reverse

/-- The numeric value of a most-significant-first digit list. -/
def digitsVal (ds : List ℕ) : ℕ := ds.foldl (fun a d => 10 * a + d) 0

/-- The character of a decimal digit. -/
def digitChar (d : ℕ) : Char := Char.ofNat (48 + d)

/-- Pad a digit list with leading zeros to length `k`. -/
def padLeft (ds : List ℕ) (k : ℕ) : List ℕ := List.replicate (k - ds.length) 0 ++ ds

/-- Remove trailing zeros from a most-significant-first digit list. -/
def stripZeros (ds : List ℕ) : List ℕ := (ds.reverse.dropWhile (fun d => d == 0)).reverse

/-- Largest `k` with `10 ^ k ≤ n`, for `n ≥ 1` (fuelled; `fuel ≥ n` suffices). -/
def ilogAux (fuel n : ℕ) : ℕ :=
  match fuel with
  | 0 => 0
  | f + 1 => if n < 10 then 0 else ilogAux f (n / 10) + 1

/-- Integer base-10 logarithm of `n ≥ 1`. -/
def natLog10 (n : ℕ) : ℕ := ilogAux n n

/-- Integer base-10 logarithm of the positive rational `a / b`: the unique `e`
with `10 ^ e ≤ a / b < 10 ^ (e + 1)`. -/
def ilog10n (a b : ℕ) : ℤ :=
  if b ≤ a then (natLog10 (a / b) : ℤ)
  else -((natLog10 ((b + a - 1) / a - 1) : ℤ) + 1)

/-- Round `q ≠ 0` to 6 significant decimal digits: returns `(n, e)` with
`10 ^ 5 ≤ n < 10 ^ 6` such that `|q|` rounds to `n · 10 ^ (e - 5)`.  Computed on
numerator and denominator in ℕ (`(2A + B) / (2B)` is `A / B` rounded half up). -/
def sig6 (q : ℚ) : ℕ × ℤ :=
  let a := q.num.natAbs
  let b := q.den
  let e := ilog10n a b
  let A := a * 10 ^ (5 - e).toNat
  let B := b * 10 ^ (e - 5).toNat
  let n := (2 * A + B) / (2 * B)
  if n = 10 ^ 6 then (10 ^ 5, e + 1) else (n, e)

/-- The value `q` carries after `%g` formatting: `q` rounded to 6 significant
decimal digits. -/
def round6 (q : ℚ) : ℚ :=
  if q = 0 then 0
  else (if q < 0 then -1 else 1) * ((sig6 q).1 : ℚ) * (10 : ℚ) ^ ((sig6 q).2 - 5)

/-- Digit characters of `n` (most significant first), `"0"` for `0`. -/
def renderDigits (n : ℕ) : List Char :=
  if n = 0 then ['0'] else (natDigits n).map digitChar

/-- Fixed-point rendering of `n / 10 ^ k`: integer part, then a decimal point and
the fractional digits with trailing zeros stripped (no point if none remain). -/
def renderFixedChars (n k : ℕ) : List Char :=
  let ip := renderDigits (n / 10 ^ k)
  let fds := stripZeros (padLeft (natDigits (n % 10 ^ k)) k)
  if fds = [] then ip else ip ++ '.' :: fds.map digitChar

/-- Exponent suffix of scientific notation: sign then at least two digits. -/
def expChars (e : ℤ) : List Char :=
  (if e < 0 then '-' else '+') :: (padLeft (natDigits e.natAbs) 2).map digitChar

/-- Scientific rendering of `n · 10 ^ e` for `10 ^ 5 ≤ n < 10 ^ 6`:
`d.ddddd` (trailing zeros stripped) followed by `e±xx`. -/
def renderSciChars (n : ℕ) (e : ℤ) : List Char :=
  renderFixedChars n 5 ++ 'e' :: expChars e

/-- Modelled from the spec: Python `"%g" % q`.  Zero is `"0"`; otherwise round to 6
significant digits and use fixed-point notation when the decimal exponent is in
`[-4, 6)`, scientific notation otherwise.  Ties round half up. -/
def fmtG (q : ℚ) : String :=
  if q = 0 then "0"
  else
    let p := sig6 q
    let body :=
      if -4 ≤ p.2 ∧ p.2 < 6 then renderFixedChars p.1 (5 - p.2).toNat
      else renderSciChars p.1 p.2
    String.mk (if q < 0 then '-' :: body else body)

/-- Consume leading decimal digits: returns the accumulated value, the number of
digits consumed and the rest of the input. -/
def parseNatDigits : List Char → ℕ → ℕ → ℕ × ℕ × List Char
  | [], acc, cnt => (acc, cnt, [])
  | c :: rest, acc, cnt =>
    if c.isDigit then parseNatDigits rest (10 * acc + (c.toNat - 48)) (cnt + 1)
    else (acc, cnt, c :: rest)

/-- Parse an optional exponent suffix (`e±dd`) and apply it to the mantissa;
anything else trailing makes the parse fail. -/
def parseExp (cs : List Char) (mant : ℚ) : Option ℚ :=
  match cs with
  | [] => some mant
  | 'e' :: rest => parseExpTail rest mant
  | 'E' :: rest => parseExpTail rest mant
  | _ => none
where
  parseExpTail (cs : List Char) (mant : ℚ) : Option ℚ :=
    let sr : ℤ × List Char :=
      match cs with
      | '-' :: r => (-1, r)
      | '+' :: r => (1, r)
      | _ => (1, cs)
    let p := parseNatDigits sr.2 0 0
    if p.2.1 = 0 ∨ p.2.2 ≠ [] then none
    else some (mant * (10 : ℚ) ^ (sr.1 * p.1))

/-- Parse an unsigned decimal numeral `ddd[.ddd][e±dd]`. -/
def parseUnsigned (cs : List Char) : Option ℚ :=
  let p := parseNatDigits cs 0 0
  if p.2.2.head? = some '.' then
    let f := parseNatDigits p.2.2.tail 0 0
    if p.2.1 + f.2.1 = 0 then none
    else parseExp f.2.2 (((p.1 * 10 ^ f.2.1 + f.1 : ℕ) : ℚ) / ((10 ^ f.2.1 : ℕ) : ℚ))
  else if p.2.1 = 0 then none else parseExp p.2.2 ((p.1 : ℕ) : ℚ)

/-- Modelled from the spec: Python `float(s)` on an already-stripped string
(decimal notation with optional sign, fraction and exponent). -/
def parseFloat (s : String) : Option ℚ :=
  match s.data with
  | [] => none
  | c :: rest =>
    if c == '-' then (parseUnsigned rest).map (fun q => -q)
    else if c == '+' then parseUnsigned rest
    else parseUnsigned (c :: rest)

/-- Python whitespace, as stripped by `str.strip()`. -/
def isPySpace (c : Char) : Bool :=
  c == ' ' || c == '\t' || c == '\n' || c == '\r' || c == '\x0b' || c == '\x0c'

/-- Modelled from the spec: the raw response is trimmed before conversion
(Python `str.strip()`). -/
def pyStrip (s : String) : String :=
  String.mk (((s.data.dropWhile isPySpace).reverse.dropWhile isPySpace).reverse)

/-- Substitute the first `%g` / `%s` marker of a command template by a token:
Python `template % value` for the templates of this driver. -/
def substFormat : List Char → List Char → List Char
  | [], _ => []
  | '%' :: 'g' :: rest, tok => tok ++ rest
  | '%' :: 's' :: rest, tok => tok ++ rest
  | c :: rest, tok => c :: substFormat rest tok

/-- Format a command template with a token. -/
def formatCommand (template token : String) : String :=
  String.mk (substFormat template.data token.data)

/-- The wire token of a value without a value mapping (`%g` for numbers). -/
def PyVal.format : PyVal → String
  | .str s => s
  | .bool b => if b then "True" else "False"
  | .num q => fmtG q

/-- Forward lookup of a semantic value in a value mapping. -/
def mapLookup (entries : List (PyVal × String)) (v : PyVal) : Option String :=
  (entries.find? (fun e => e.1 == v)).map (fun e => e.2)

/-- Reverse lookup of a wire token in a value mapping. -/
def reverseLookup (entries : List (PyVal × String)) (token : String) : Option PyVal :=
  (entries.find? (fun e => e.2 == token)).map (fun e => e.1)

/-- Python truthiness: `bool(x)` on the values of this model. -/
def pythonBool : PyVal → Bool
  | .str s => s != ""
  | .bool b => b
  | .num q => q != 0

/-- Modelled from the spec: the read path of §4.1.  Absent query command fails with
`NotSupportedError`; otherwise the query is sent, the response trimmed, and
converted: reverse mapping (unknown tokens fail with `UnknownResponseError`), or the
cast — float (unparsable responses stay strings, the "returns the trimmed string
unchanged" branch), or bool via float (unparsable responses fail with `ValueError`). -/
def Property.read (p : Property) (a : Adapter) : Adapter × Except PyError PyVal :=
  match p.get_command with
  | none => (a, .error .NotSupportedError)
  | some cmd =>
    let ar := a.query cmd
    let trimmed := pyStrip ar.2
    if p.map_values then
      match p.values with
      | some (.mapping m) =>
        match reverseLookup m trimmed with
        | some v => (ar.1, .ok v)
        | none => (ar.1, .error .UnknownResponseError)
      | _ => (ar.1, .error .UnknownResponseError)
    else
      match p.cast with
      | .float =>
        match parseFloat trimmed with
        | some q => (ar.1, .ok (.num q))
        | none => (ar.1, .ok (.str trimmed))
      | .bool =>
        match parseFloat trimmed with
        | some q => (ar.1, .ok (.bool (decide (q ≠ 0))))
        | none => (ar.1, .error .ValueError)

/-- Modelled from the spec: the write path of §4.1.  Absent write command fails with
`NotSupportedError`; otherwise validate (a failing validator sends nothing), map the
semantic value to its wire token when a mapping is present, format the command
template and send it. -/
def Property.write (p : Property) (a : Adapter) (v : PyVal) :
    Adapter × Except PyError Unit :=
  match p.set_command with
  | none => (a, .error .NotSupportedError)
  | some cmd =>
    let validated : Except PyError PyVal :=
      match p.validator, p.values with
      | some val, some vs => val.apply v vs
      | _, _ => .ok v
    match validated with
    | .error e => (a, .error e)
    | .ok w =>
      let token : Option String :=
        if p.map_values then
          match p.values with
          | some (.mapping m) => mapLookup m w
          | _ => none
        else some w.format
      match token with
      | some tok => (a.write (formatCommand cmd tok), .ok ())
      | none => (a, .error .ValidationError)

/- ---------------------------------------------------------------------------
The property table of `class KeysightB2961A(Instrument)`, transcribed from the
source.  Docstrings are transcribed with line breaks collapsed to single spaces.
--------------------------------------------------------------------------- -/

/-- `source_mode` (source line 44). -/
def source_mode : Property :=
  Instrument.control ":SOUR:FUNC:MODE?" ":SOUR:FUNC:MODE %s"
    " A string property that controls the source mode, which can take the values \x27current\x27 or \x27voltage\x27. The convenience methods :meth:`~.KeysightB2961A.apply_current` and :meth:`~.KeysightB2961A.apply_voltage` can also be used. "
    (some .strictDiscreteSet)
    (some (.mapping [(.str "current", "CURR"), (.str "voltage", "VOLT")]))
    true

/-- `source_func` (source line 55). -/
def source_func : Property :=
  Instrument.control ":SOUR:FUNC?" ":SOUR:FUNC %s"
    " A string property that controls the source function, which can take the values \x27dc\x27 or \x27pulse\x27. "
    (some .strictDiscreteSet)
    (some (.mapping [(.str "pulse", "PULS"), (.str "dc", "DC")]))
    true

/-- `source_enabled` (source line 64); declared via the misspelled name
`Insturment.measurement` — the descriptor as intended, the `NameError` is treated
in the import-time model below. -/
def source_enabled : Property :=
  Instrument.measurement "OUTPUT?"
    " Reads a boolean value that is True if the source is enabled. "
    Cast.bool

/-- `source_current` (source line 73). -/
def source_current : Property :=
  Instrument.control ":SOUR:CURR:LEV:IMM:AMPL?" ":SOUR:CURR:LEV:IMM:AMPL %g"
    " A floating point property that controls the immediate current output. "
    (some .truncatedRange)
    (some (.range (-3) 3))
    false

/-- The first `source_current_reading` declaration (source line 81). -/
def source_current_reading_declA : Property :=
  Instrument.measurement "READ:SOUR?"
    " Provides a readback of the sourced current. "
    Cast.float

/-- `source_current_range` (source line 84). -/
def source_current_range : Property :=
  Instrument.control ":SOUR:CURR:RANG?" ":SOUR:CURR:RANG %g"
    " A floating point property that controls the source current range. "
    (some .truncatedRange)
    (some (.range (-3) 3))
    false

/-- `source_current_autorange` (source line 92). -/
def source_current_autorange : Property :=
  Instrument.control ":SOUR:CURR:RANG:AUTO?" ":SOUR:CURR:RANG:AUTO %s"
    " A bool property that controls the source auto range function. "
    (some .strictDiscreteSet)
    (some (.mapping [(.bool true, "ON"), (.bool false, "OFF")]))
    true

/-- `source_voltage` (source line 103). -/
def source_voltage : Property :=
  Instrument.control ":SOUR:VOLT:LEV:IMM:AMPL?" ":SOUR:VOLT:LEV:IMM:AMPL %g"
    " A floating point property that controls the immediate voltage output. "
    (some .truncatedRange)
    (some (.range (-21) 21))
    false

/-- The second `source_current_reading` declaration (source line 111), documented
as a voltage readback. -/
def source_current_reading_declB : Property :=
  Instrument.measurement "READ:SOUR?"
    " Provides a readback of the sourced voltage. "
    Cast.float

/-- The surviving `source_current_reading` binding: the second declaration. -/
def source_current_reading : Property := source_current_reading_declB

/-- `source_voltage_range` (source line 114). -/
def source_voltage_range : Property :=
  Instrument.control ":SOUR:VOLT:RANG?" ":SOUR:VOLT:RANG %g"
    " A floating point property that controls the source voltage range. "
    (some .truncatedRange)
    (some (.range (-21) 21))
    false

/-- `source_voltage_autorange` (source line 122). -/
def source_voltage_autorange : Property :=
  Instrument.control ":SOUR:VOLT:RANG:AUTO?" ":SOUR:VOLT:RANG:AUTO %s"
    " A bool property that controls the source auto range function. "
    (some .strictDiscreteSet)
    (some (.mapping [(.bool true, "ON"), (.bool false, "OFF")]))
    true

/-- `current_comp` (source line 137). -/
def current_comp : Property :=
  Instrument.control ":SENS:CURR:PROT?" ":SENS:CURR:PROT %g"
    " A floating point property that sets the compliance value. The setting is applied to both positive and negative sides. "
    (some .truncatedRange)
    (some (.range (-3) 3))
    false

/-- `current_comp_tipped` (source line 145). -/
def current_comp_tipped : Property :=
  Instrument.measurement "SENS:CURR:PROT:TRIP?"
    " Reads the status of the compliance. "
    Cast.bool

/-- `current` (source line 150). -/
def current : Property :=
  Instrument.measurement ":READ:CURR?"
    " Reads the current in Amps. "
    Cast.float

/-- `current_range` (source line 154). -/
def current_range : Property :=
  Instrument.control ":SENS:CURR?" ":CURR %g"
    " A floating point property that controls the DC current range in Amps, which can take values from 0 to 25 A. Auto-range is disabled when this property is set. "
    (some .truncatedRange)
    (some (.range (-3) 3))
    false

/-- `voltage_comp` (source line 166): textually a duplicate of `current_comp`,
including the `:SENS:CURR:PROT` commands. -/
def voltage_comp : Property :=
  Instrument.control ":SENS:CURR:PROT?" ":SENS:CURR:PROT %g"
    " A floating point property that sets the compliance value. The setting is applied to both positive and negative sides. "
    (some .truncatedRange)
    (some (.range (-3) 3))
    false

/-- `voltage_comp_tipped` (source line 174): textually a duplicate of
`current_comp_tipped`. -/
def voltage_comp_tipped : Property :=
  Instrument.measurement "SENS:CURR:PROT:TRIP?"
    " Reads the status of the compliance. "
    Cast.bool

/-- `voltage` (source line 179). -/
def voltage : Property :=
  Instrument.measurement ":READ:VOLT?"
    " Reads the voltage in Volts. "
    Cast.float

/-- `_status` (source line 186). -/
def _status : Property :=
  Instrument.measurement ":OUTP?"
    " Read power supply current output status. "
    Cast.float

/-- The class body as an ordered list of attribute bindings, in source order —
note the two bindings of `source_current_reading`. -/
def classBody : List (String × Property) :=
  [("source_mode", source_mode),
   ("source_func", source_func),
   ("source_enabled", source_enabled),
   ("source_current", source_current),
   ("source_current_reading", source_current_reading_declA),
   ("source_current_range", source_current_range),
   ("source_current_autorange", source_current_autorange),
   ("source_voltage", source_voltage),
   ("source_current_reading", source_current_reading_declB),
   ("source_voltage_range", source_voltage_range),
   ("source_voltage_autorange", source_voltage_autorange),
   ("current_comp", current_comp),
   ("current_comp_tipped", current_comp_tipped),
   ("current", current),
   ("current_range", current_range),
   ("voltage_comp", voltage_comp),
   ("voltage_comp_tipped", voltage_comp_tipped),
   ("voltage", voltage),
   ("_status", _status)]

/-- Python dictionary assignment: a later binding of the same key overwrites the
earlier one in place. -/
def setItem (d : List (String × Property)) (key : String) (v : Property) :
    List (String × Property) :=
  if d.any (fun e => e.1 == key) then
    d.map (fun e => if e.1 == key then (key, v) else e)
  else d ++ [(key, v)]

/-- The final class attribute table: the class body evaluated into a dictionary. -/
def classDict : List (String × Property) :=
  classBody.foldl (fun d e => setItem d e.1 e.2) []

/-- `enable(self)` (source line 190): `self.write(":OUTP 1")`, no return value. -/
def enable (a : Adapter) : Adapter := a.write ":OUTP 1"

/-- `disable(self)` (source line 195): `self.write(":OUTP 0")`, no return value. -/
def disable (a : Adapter) : Adapter := a.write ":OUTP 0"

/-- `is_enabled(self)` (source line 200): `return bool(self._status)` — a read of
the `_status` property followed by Python truthiness. -/
def is_enabled (a : Adapter) : Adapter × Except PyError Bool :=
  let r := _status.read a
  match r.2 with
  | .ok v => (r.1, .ok (pythonBool v))
  | .error e => (r.1, .error e)

/-- The `config(...)` call of `__init__` (source line 211), with its keyword
arguments `is_binary=False, datatype=\x27float32\x27, converter=\x27f\x27,
separator=\x27,\x27`. -/
def initConfigCall : ConfigCall := ⟨false, "float32", "f", ","⟩

/-- `__init__(self, adapter, name=…, **kwargs)` (source line 205): after the base
constructor (which performs no adapter I/O), configure the data-transfer format
exactly when `isinstance(self.adapter, VISAAdapter)`. -/
def init (a : Adapter) : Adapter :=
  if a.isVISA then a.config initConfigCall else a

/- ---------------------------------------------------------------------------
Import-time model for the undefined names of the class body.
--------------------------------------------------------------------------- -/

/-- The names imported by the module (source lines 26–31): `logging`,
`Instrument`, `truncated_range`, `VISAAdapter` — and nothing else. -/
def importedNames : List String :=
  ["logging", "Instrument", "truncated_range", "VISAAdapter"]

/-- The module globals in scope when the class body is evaluated: the imports
plus the module-level `log` (source line 33). -/
def moduleEnv : List String := importedNames ++ ["log"]

/-- The class-body statements in source order, each with the free names it looks
up during evaluation, in evaluation order.  `def` statements evaluate their bodies
only when called, so they look up nothing at class-definition time. -/
def classBodyReferences : List (String × List String) :=
  [("source_mode", ["Instrument", "strict_discrete_set"]),
   ("source_func", ["Instrument", "strict_discrete_set"]),
   ("source_enabled", ["Insturment"]),
   ("source_current", ["Instrument", "truncated_range"]),
   ("source_current_reading", ["Instrument"]),
   ("source_current_range", ["Instrument", "truncated_range"]),
   ("source_current_autorange", ["Instrument", "strict_discrete_set"]),
   ("source_voltage", ["Instrument", "truncated_range"]),
   ("source_current_reading", ["Instrument"]),
   ("source_voltage_range", ["Instrument", "truncated_range"]),
   ("source_voltage_autorange", ["Instrument", "strict_discrete_set"]),
   ("current_comp", ["Instrument", "truncated_range"]),
   ("current_comp_tipped", ["Instrument"]),
   ("current", ["Instrument"]),
   ("current_range", ["Instrument", "truncated_range"]),
   ("voltage_comp", ["Instrument", "truncated_range"]),
   ("voltage_comp_tipped", ["Instrument"]),
   ("voltage", ["Instrument"]),
   ("_status", ["Instrument"]),
   ("enable", []),
   ("disable", []),
   ("is_enabled", []),
   ("__init__", [])]

/-- Evaluate a class body statement by statement in an environment: the first
looked-up name that is bound neither in the class namespace nor in the enclosing
environment raises `NameError` with that name; otherwise the statement binds its
attribute name and evaluation continues. -/
def evalClassBody (env : List String) : List (String × List String) → Except String (List String)
  | [] => .ok env
  | (nm, refs) :: rest =>
    match refs.find? (fun r => !(env.contains r)) with
    | some missing => .error missing
    | none => evalClassBody (env ++ [nm]) rest

/-- A mock adapter with an empty log and a constant canned response. -/
def mock (resp : String) : Adapter := ⟨false, [], [], fun _ => resp, []⟩

/-- The numeric value of a least-significant-first digit list (proof scaffolding
for `natDigits`). -/
def digitsValRev : List ℕ → ℕ
  | [] => 0
  | d :: ds => d + 10 * digitsValRev ds

/-- The control properties declared with the truncating range validator. -/
def truncatedRangeControls : List Property :=
  [source_current, source_current_range, source_voltage, source_voltage_range,
   current_comp, current_range, voltage_comp]

/-- The control properties declared with a discrete value mapping. -/
def discreteControls : List Property :=
  [source_mode, source_func, source_current_autorange, source_voltage_autorange]

/-- The measurement properties declared with `cast=bool`. -/
def boolCastMeasurements : List Property :=
  [source_enabled, current_comp_tipped, voltage_comp_tipped]

/-- A character that may legally follow the digits of an integer part or of a
complete numeral: end of input, or a char that is neither a digit nor a point. -/
def tailOK (cs : List Char) : Prop :=
  ∀ c ∈ cs.head?, c.isDigit = false ∧ c ≠ '.'

/- ---------------------------------------------------------------------------
Digit-list lemmas.
--------------------------------------------------------------------------- -/

theorem digitsVal_append_singleton (xs : List ℕ) (d : ℕ) :
    digitsVal (xs ++ [d]) = 10 * digitsVal xs + d := by
  simp [digitsVal, List.foldl_append]

theorem digitsVal_reverse (l : List ℕ) : digitsVal l.reverse = digitsValRev l := by
  induction l with
  | nil => rfl
  | cons d ds ih =>
    rw [List.reverse_cons, digitsVal_append_singleton, ih, digitsValRev]
    ring

theorem natDigitsRevAux_val (f : ℕ) :
    ∀ n, n ≤ f → digitsValRev (natDigitsRevAux f n) = n := by
  induction f with
  | zero => intro n hn; interval_cases n; rfl
  | succ f ih =>
    intro n hn
    by_cases h0 : n = 0
    · subst h0; simp [natDigitsRevAux, digitsValRev]
    · have hdiv : n / 10 ≤ f := by
        have : n / 10 < n := Nat.div_lt_self (Nat.pos_of_ne_zero h0) (by norm_num)
        omega
      simp only [natDigitsRevAux, h0, if_false, digitsValRev, ih _ hdiv]
      omega

theorem natDigits_val (n : ℕ) : digitsVal (natDigits n) = n := by
  rw [natDigits, digitsVal_reverse, natDigitsRev, natDigitsRevAux_val n n le_rfl]

theorem natDigitsRevAux_lt (f : ℕ) :
    ∀ n, ∀ d ∈ natDigitsRevAux f n, d < 10 := by
  induction f with
  | zero => intro n d hd; simp [natDigitsRevAux] at hd
  | succ f ih =>
    intro n d hd
    by_cases h0 : n = 0
    · subst h0; simp [natDigitsRevAux] at hd
    · simp only [natDigitsRevAux, h0, if_false, List.mem_cons] at hd
      rcases hd with rfl | hd
      · omega
      · exact ih _ d hd

theorem natDigits_lt (n : ℕ) : ∀ d ∈ natDigits n, d < 10 := by
  intro d hd
  rw [natDigits, List.mem_reverse] at hd
  exact natDigitsRevAux_lt n n d hd

theorem natDigitsRevAux_length (f : ℕ) :
    ∀ n k, n ≤ f → n < 10 ^ k → (natDigitsRevAux f n).length ≤ k := by
  induction f with
  | zero => intro n k _ _; simp [natDigitsRevAux]
  | succ f ih =>
    intro n k hn hk
    by_cases h0 : n = 0
    · subst h0; simp [natDigitsRevAux]
    · have hkpos : k ≠ 0 := by
        rintro rfl
        rw [pow_zero] at hk
        omega
      obtain ⟨k, rfl⟩ := Nat.exists_eq_succ_of_ne_zero hkpos
      have hdiv : n / 10 < 10 ^ k := by
        rw [Nat.div_lt_iff_lt_mul (by norm_num)]
        calc n < 10 ^ (k + 1) := hk
          _ = 10 ^ k * 10 := by ring
      have hf : n / 10 ≤ f := by
        have : n / 10 < n := Nat.div_lt_self (Nat.pos_of_ne_zero h0) (by norm_num)
        omega
      simp only [natDigitsRevAux, h0, if_false, List.length_cons]
      have := ih (n / 10) k hf hdiv
      omega

theorem natDigits_length (n k : ℕ) (h : n < 10 ^ k) : (natDigits n).length ≤ k := by
  rw [natDigits, List.length_reverse]
  exact natDigitsRevAux_length n n k le_rfl h

theorem natDigits_ne_nil (n : ℕ) (h : 0 < n) : natDigits n ≠ [] := by
  rw [natDigits]
  simp only [ne_eq, List.reverse_eq_nil_iff]
  cases n with
  | zero => omega
  | succ m => simp [natDigitsRev, natDigitsRevAux]

theorem digitsVal_replicate_append (j : ℕ) (ds : List ℕ) :
    digitsVal (List.replicate j 0 ++ ds) = digitsVal ds := by
  induction j with
  | zero => rfl
  | succ j ih =>
    rw [List.replicate_succ, List.cons_append]
    simpa [digitsVal] using ih

theorem digitsVal_padLeft (ds : List ℕ) (k : ℕ) :
    digitsVal (padLeft ds k) = digitsVal ds :=
  digitsVal_replicate_append _ _

theorem padLeft_length (ds : List ℕ) (k : ℕ) (h : ds.length ≤ k) :
    (padLeft ds k).length = k := by
  simp [padLeft]
  omega

theorem padLeft_lt (ds : List ℕ) (k : ℕ) (hds : ∀ d ∈ ds, d < 10) :
    ∀ d ∈ padLeft ds k, d < 10 := by
  intro d hd
  rw [padLeft, List.mem_append] at hd
  rcases hd with hd | hd
  · rw [List.eq_of_mem_replicate hd]; omega
  · exact hds d hd

theorem digitsVal_append_zeros (xs : List ℕ) (z : ℕ) :
    digitsVal (xs ++ List.replicate z 0) = digitsVal xs * 10 ^ z := by
  induction z with
  | zero => simp
  | succ z ih =>
    rw [List.replicate_succ', ← List.append_assoc, digitsVal_append_singleton, ih]
    ring

theorem stripZeros_decomp (ds : List ℕ) :
    ∃ z, ds = stripZeros ds ++ List.replicate z 0 := by
  refine ⟨(ds.reverse.takeWhile (fun d => d == 0)).length, ?_⟩
  have hrepl : ds.reverse.takeWhile (fun d => d == 0) =
      List.replicate (ds.reverse.takeWhile (fun d => d == 0)).length 0 := by
    apply List.eq_replicate_of_mem
    intro b hb
    have := List.mem_takeWhile_imp hb
    simpa using this
  conv_lhs => rw [← ds.reverse_reverse,
    ← List.takeWhile_append_dropWhile (p := fun d => d == 0) (l := ds.reverse)]
  rw [List.reverse_append, stripZeros]
  congr 1
  rw [hrepl, List.reverse_replicate, List.length_replicate]

theorem stripZeros_sub (ds : List ℕ) : ∀ d ∈ stripZeros ds, d ∈ ds := by
  intro d hd
  rw [stripZeros, List.mem_reverse] at hd
  rw [← ds.reverse_reverse, List.mem_reverse]
  exact (List.dropWhile_sublist _).mem hd

/- ---------------------------------------------------------------------------
Character lemmas and the behaviour of the parser on rendered digit blocks.
--------------------------------------------------------------------------- -/

theorem digitChar_isDigit {d : ℕ} (h : d < 10) : (digitChar d).isDigit = true := by
  interval_cases d <;> decide

theorem digitChar_toNat {d : ℕ} (h : d < 10) : (digitChar d).toNat - 48 = d := by
  interval_cases d <;> decide

theorem isDigit_beq_false {c c0 : Char} (h : c.isDigit = true) (h0 : c0.isDigit = false) :
    (c == c0) = false := by
  cases hbe : c == c0
  · rfl
  · have hc : c = c0 := by simpa using hbe
    subst hc
    rw [h] at h0
    cases h0

theorem parseNatDigits_spec : ∀ (ds : List ℕ) (rest : List Char) (acc cnt : ℕ),
    (∀ d ∈ ds, d < 10) → (∀ c ∈ rest.head?, c.isDigit = false) →
    parseNatDigits (ds.map digitChar ++ rest) acc cnt =
      (ds.foldl (fun a d => 10 * a + d) acc, cnt + ds.length, rest) := by
  intro ds
  induction ds with
  | nil =>
    intro rest acc cnt _ hrest
    cases rest with
    | nil => rfl
    | cons c r =>
      have hc : c.isDigit = false := hrest c (by simp)
      simp [parseNatDigits, hc]
  | cons d ds ih =>
    intro rest acc cnt hds hrest
    have hd : d < 10 := hds d (by simp)
    simp only [List.map_cons, List.cons_append, parseNatDigits, digitChar_isDigit hd, if_true,
      digitChar_toNat hd, List.append_eq]
    rw [ih rest _ _ (fun x hx => hds x (List.mem_cons_of_mem _ hx)) hrest]
    simp only [List.foldl_cons, List.length_cons, Prod.mk.injEq]
    exact ⟨trivial, by omega, trivial⟩

theorem renderDigits_spec (m : ℕ) :
    ∃ ds, renderDigits m = ds.map digitChar ∧ (∀ d ∈ ds, d < 10) ∧
      digitsVal ds = m ∧ ds ≠ [] := by
  by_cases h0 : m = 0
  · subst h0
    refine ⟨[0], ?_, by simp, rfl, by simp⟩
    simp [renderDigits, digitChar]
  · refine ⟨natDigits m, ?_, natDigits_lt m, natDigits_val m,
      natDigits_ne_nil m (Nat.pos_of_ne_zero h0)⟩
    simp [renderDigits, h0]


theorem parseExp_nil (mant : ℚ) : parseExp [] mant = some mant := rfl

theorem parseUnsigned_render (n k : ℕ) (tail : List Char) (ht : tailOK tail) :
    parseUnsigned (renderFixedChars n k ++ tail) =
      parseExp tail ((n : ℚ) / ((10 ^ k : ℕ) : ℚ)) := by
  have hpow : (0:ℕ) < 10 ^ k := pow_pos (by norm_num) k
  have hm : n % 10 ^ k < 10 ^ k := Nat.mod_lt _ hpow
  obtain ⟨ids, hids_eq, hids_lt, hids_val, hids_ne⟩ := renderDigits_spec (n / 10 ^ k)
  have hP_len : (padLeft (natDigits (n % 10 ^ k)) k).length = k :=
    padLeft_length _ _ (natDigits_length _ _ hm)
  have hP_val : digitsVal (padLeft (natDigits (n % 10 ^ k)) k) = n % 10 ^ k := by
    rw [digitsVal_padLeft, natDigits_val]
  have hP_lt : ∀ d ∈ padLeft (natDigits (n % 10 ^ k)) k, d < 10 :=
    padLeft_lt _ _ (natDigits_lt _)
  obtain ⟨z, hz⟩ := stripZeros_decomp (padLeft (natDigits (n % 10 ^ k)) k)
  have hfds_lt : ∀ d ∈ stripZeros (padLeft (natDigits (n % 10 ^ k)) k), d < 10 :=
    fun d hd => hP_lt d (stripZeros_sub _ d hd)
  have hz_len : (stripZeros (padLeft (natDigits (n % 10 ^ k)) k)).length + z = k := by
    have hlen := congrArg List.length hz
    rw [hP_len, List.length_append, List.length_replicate] at hlen
    omega
  have hz_val : digitsVal (stripZeros (padLeft (natDigits (n % 10 ^ k)) k)) * 10 ^ z
      = n % 10 ^ k := by
    have h1 : digitsVal (padLeft (natDigits (n % 10 ^ k)) k)
        = digitsVal (stripZeros (padLeft (natDigits (n % 10 ^ k)) k)) * 10 ^ z := by
      conv_lhs => rw [hz]
      exact digitsVal_append_zeros _ _
    exact h1.symm.trans hP_val
  have htail_nd : ∀ c ∈ tail.head?, c.isDigit = false := fun c hc => (ht c hc).1
  have htail_ndot : ¬ tail.head? = some '.' := by
    cases tail with
    | nil => simp
    | cons c r =>
      have := (ht c (by simp)).2
      simpa using this
  have hids_len : ids.length ≠ 0 := by
    have := List.length_pos.mpr hids_ne
    omega
  by_cases hempty : stripZeros (padLeft (natDigits (n % 10 ^ k)) k) = []
  · have hmz : n % 10 ^ k = 0 := by
      rw [← hz_val, hempty]
      simp [digitsVal]
    have hchars : renderFixedChars n k = ids.map digitChar := by
      simp only [renderFixedChars]
      rw [if_pos hempty]
      exact hids_eq
    rw [hchars]
    simp only [parseUnsigned]
    rw [parseNatDigits_spec ids tail 0 0 hids_lt htail_nd]
    simp only [Nat.zero_add]
    rw [if_neg htail_ndot, if_neg hids_len]
    congr 1
    show ((digitsVal ids : ℕ) : ℚ) = (n : ℚ) / ((10 ^ k : ℕ) : ℚ)
    rw [hids_val, eq_div_iff (by positivity)]
    exact_mod_cast Nat.div_mul_cancel (Nat.dvd_of_mod_eq_zero hmz)
  · have hfds_len : (stripZeros (padLeft (natDigits (n % 10 ^ k)) k)).length ≠ 0 := by
      have := List.length_pos.mpr hempty
      omega
    have hchars : renderFixedChars n k ++ tail
        = ids.map digitChar ++ ('.' ::
            ((stripZeros (padLeft (natDigits (n % 10 ^ k)) k)).map digitChar ++ tail)) := by
      simp only [renderFixedChars]
      rw [if_neg hempty, hids_eq]
      simp [List.append_assoc]
    rw [hchars]
    simp only [parseUnsigned]
    rw [parseNatDigits_spec ids _ 0 0 hids_lt
      (by rintro c hc; simp at hc; subst hc; decide)]
    rw [if_pos (show ('.' :: ((stripZeros (padLeft (natDigits (n % 10 ^ k)) k)).map digitChar
      ++ tail)).head? = some '.' from rfl)]
    simp only [List.tail_cons, Nat.zero_add]
    rw [parseNatDigits_spec _ tail 0 0 hfds_lt htail_nd]
    simp only [Nat.zero_add]
    rw [if_neg (show ¬(ids.length
      + (stripZeros (padLeft (natDigits (n % 10 ^ k)) k)).length = 0) by omega)]
    congr 1
    show (((digitsVal ids * 10 ^ (stripZeros (padLeft (natDigits (n % 10 ^ k)) k)).length
      + digitsVal (stripZeros (padLeft (natDigits (n % 10 ^ k)) k)) : ℕ)) : ℚ)
      / (((10 ^ (stripZeros (padLeft (natDigits (n % 10 ^ k)) k)).length : ℕ)) : ℚ)
      = (n : ℚ) / ((10 ^ k : ℕ) : ℚ)
    rw [hids_val]
    set F := (stripZeros (padLeft (natDigits (n % 10 ^ k)) k)).length with hF
    set D := digitsVal (stripZeros (padLeft (natDigits (n % 10 ^ k)) k)) with hD
    set I := n / 10 ^ k with hI
    have hn : I * 10 ^ k + D * 10 ^ z = n := by
      rw [hz_val]
      exact Nat.div_add_mod' n (10 ^ k)
    have h1 : (10:ℕ) ^ k = 10 ^ F * 10 ^ z := by rw [← pow_add, hz_len]
    have key : (I * 10 ^ F + D) * 10 ^ k = n * 10 ^ F := by
      conv_rhs => rw [← hn]
      rw [h1]
      ring
    rw [div_eq_div_iff (by positivity) (by positivity)]
    exact_mod_cast key


theorem parseNatDigits_noTail (ds : List ℕ) (acc cnt : ℕ) (h : ∀ d ∈ ds, d < 10) :
    parseNatDigits (ds.map digitChar) acc cnt =
      (ds.foldl (fun a d => 10 * a + d) acc, cnt + ds.length, []) := by
  have := parseNatDigits_spec ds [] acc cnt h (by simp)
  simpa using this

theorem padLeft_two_ne_zero (ds : List ℕ) : (padLeft ds 2).length ≠ 0 := by
  simp only [padLeft, List.length_append, List.length_replicate]
  omega

theorem parseExp_sci (e : ℤ) (mant : ℚ) :
    parseExp ('e' :: expChars e) mant = some (mant * (10 : ℚ) ^ e) := by
  have hpadval : digitsVal (padLeft (natDigits e.natAbs) 2) = e.natAbs := by
    rw [digitsVal_padLeft, natDigits_val]
  have hpadlt : ∀ d ∈ padLeft (natDigits e.natAbs) 2, d < 10 :=
    padLeft_lt _ _ (natDigits_lt _)
  by_cases he : e < 0
  · simp only [expChars, if_pos he]
    show parseExp.parseExpTail ('-' :: (padLeft (natDigits e.natAbs) 2).map digitChar) mant
      = some (mant * (10 : ℚ) ^ e)
    simp only [parseExp.parseExpTail]
    rw [parseNatDigits_noTail _ 0 0 hpadlt]
    rw [if_neg (not_or.mpr ⟨by simpa using padLeft_two_ne_zero (natDigits e.natAbs), by simp⟩)]
    have : ((-1 : ℤ)) * (digitsVal (padLeft (natDigits e.natAbs) 2) : ℤ) = e := by
      rw [hpadval]
      omega
    rw [show (List.foldl (fun a d => 10 * a + d) 0 (padLeft (natDigits e.natAbs) 2))
      = digitsVal (padLeft (natDigits e.natAbs) 2) from rfl, this]
  · simp only [expChars, if_neg he]
    show parseExp.parseExpTail ('+' :: (padLeft (natDigits e.natAbs) 2).map digitChar) mant
      = some (mant * (10 : ℚ) ^ e)
    simp only [parseExp.parseExpTail]
    rw [parseNatDigits_noTail _ 0 0 hpadlt]
    rw [if_neg (not_or.mpr ⟨by simpa using padLeft_two_ne_zero (natDigits e.natAbs), by simp⟩)]
    have : ((1 : ℤ)) * (digitsVal (padLeft (natDigits e.natAbs) 2) : ℤ) = e := by
      rw [hpadval]
      omega
    rw [show (List.foldl (fun a d => 10 * a + d) 0 (padLeft (natDigits e.natAbs) 2))
      = digitsVal (padLeft (natDigits e.natAbs) 2) from rfl, this]

theorem parseFloat_mk_neg (cs : List Char) :
    parseFloat (String.mk ('-' :: cs)) = (parseUnsigned cs).map (fun q => -q) := rfl

theorem parseFloat_mk_digit (cs : List Char) (c0 : Char) (h0 : cs.head? = some c0)
    (hd : c0.isDigit = true) : parseFloat (String.mk cs) = parseUnsigned cs := by
  cases cs with
  | nil => simp at h0
  | cons c r =>
    have hc : c0 = c := by simpa using h0.symm
    subst hc
    show parseFloat (String.mk (c0 :: r)) = _
    simp only [parseFloat]
    rw [isDigit_beq_false hd (by decide), isDigit_beq_false hd (by decide)]
    simp


theorem ilogAux_spec (f : ℕ) : ∀ n, 1 ≤ n → n ≤ f →
    10 ^ ilogAux f n ≤ n ∧ n < 10 ^ (ilogAux f n + 1) := by
  induction f with
  | zero => intro n h1 h2; omega
  | succ f ih =>
    intro n h1 h2
    by_cases hn : n < 10
    · simp only [ilogAux, if_pos hn]
      exact ⟨by simpa using h1, by simpa using hn⟩
    · push_neg at hn
      simp only [ilogAux, if_neg (show ¬ n < 10 by omega)]
      have h10 : 1 ≤ n / 10 := (Nat.one_le_div_iff (by norm_num)).mpr hn
      have hf : n / 10 ≤ f := by
        have : n / 10 < n := Nat.div_lt_self (by omega) (by norm_num)
        omega
      obtain ⟨hlo, hhi⟩ := ih (n / 10) h10 hf
      constructor
      · calc (10:ℕ) ^ (ilogAux f (n / 10) + 1) = 10 ^ ilogAux f (n / 10) * 10 := by ring
          _ ≤ (n / 10) * 10 := Nat.mul_le_mul_right _ hlo
          _ ≤ n := by omega
      · calc n < 10 ^ (ilogAux f (n / 10) + 1) * 10 :=
            (Nat.div_lt_iff_lt_mul (by norm_num : (0:ℕ) < 10)).mp hhi
          _ = 10 ^ (ilogAux f (n / 10) + 1 + 1) := by ring

theorem natLog10_spec (n : ℕ) (h : 1 ≤ n) :
    10 ^ natLog10 n ≤ n ∧ n < 10 ^ (natLog10 n + 1) :=
  ilogAux_spec n n h le_rfl

theorem ilog10n_spec (a b : ℕ) (ha : 1 ≤ a) (hb : 1 ≤ b) :
    (10:ℚ) ^ ilog10n a b ≤ (a : ℚ) / b ∧ (a : ℚ) / b < (10:ℚ) ^ (ilog10n a b + 1) := by
  have hbq : (0:ℚ) < (b:ℚ) := by positivity
  by_cases hba : b ≤ a
  · simp only [ilog10n, if_pos hba]
    have hd1 : 1 ≤ a / b := (Nat.one_le_div_iff (by omega)).mpr hba
    obtain ⟨hlo, hhi⟩ := natLog10_spec (a / b) hd1
    constructor
    · rw [zpow_natCast]
      have h1 : ((a / b : ℕ) : ℚ) ≤ (a:ℚ) / b := by
        rw [le_div_iff hbq]
        exact_mod_cast Nat.div_mul_le_self a b
      calc ((10:ℚ)) ^ natLog10 (a / b) = (((10 ^ natLog10 (a / b) : ℕ)) : ℚ) := by push_cast; ring
        _ ≤ ((a / b : ℕ) : ℚ) := by exact_mod_cast hlo
        _ ≤ (a:ℚ) / b := h1
    · have hstep : a < (a / b + 1) * b := by
        have h := Nat.div_add_mod a b
        have hm : a % b < b := Nat.mod_lt a (by omega)
        calc a = b * (a / b) + a % b := h.symm
          _ < b * (a / b) + b := Nat.add_lt_add_left hm _
          _ = (a / b + 1) * b := by ring
      have h2 : (a:ℚ) / b < ((a / b : ℕ) : ℚ) + 1 := by
        rw [div_lt_iff hbq]
        exact_mod_cast hstep
      have h3 : ((a / b : ℕ) : ℚ) + 1 ≤ ((10:ℚ)) ^ (natLog10 (a / b) + 1) := by
        have : a / b + 1 ≤ 10 ^ (natLog10 (a / b) + 1) := hhi
        exact_mod_cast this
      have hze : ((natLog10 (a / b) : ℤ) + 1) = ((natLog10 (a / b) + 1 : ℕ) : ℤ) := by push_cast; ring
      rw [hze, zpow_natCast]
      exact h2.trans_le h3
  · push_neg at hba
    simp only [ilog10n, if_neg (show ¬ b ≤ a by omega)]
    have hx1 : a ≤ b + a - 1 := by omega
    have hTdef := Nat.div_add_mod (b + a - 1) a
    have hMlt : (b + a - 1) % a < a := Nat.mod_lt _ (by omega)
    have hble : b ≤ a * ((b + a - 1) / a) := by
      generalize hT : a * ((b + a - 1) / a) = T at hTdef
      generalize hM : (b + a - 1) % a = M at hTdef hMlt
      omega
    have hcle : a * ((b + a - 1) / a) ≤ b + a - 1 := Nat.mul_div_le _ _
    have hc1 : 1 ≤ (b + a - 1) / a := (Nat.one_le_div_iff (by omega)).mpr hx1
    have hsplit : a * ((b + a - 1) / a) = a * ((b + a - 1) / a - 1) + a := by
      have hc : (b + a - 1) / a - 1 + 1 = (b + a - 1) / a := by omega
      calc a * ((b + a - 1) / a) = a * (((b + a - 1) / a - 1) + 1) := by rw [hc]
        _ = a * ((b + a - 1) / a - 1) + a := by ring
    have hlt : a * ((b + a - 1) / a - 1) < b := by
      generalize hT : a * ((b + a - 1) / a - 1) = T at hsplit
      generalize hS : a * ((b + a - 1) / a) = S at hsplit hble hcle
      omega
    have hc2 : 2 ≤ (b + a - 1) / a := by
      by_contra hcon
      push_neg at hcon
      have hcc : (b + a - 1) / a = 1 := by omega
      rw [hcc, Nat.mul_one] at hble
      omega
    have hcd1 : 1 ≤ (b + a - 1) / a - 1 := by omega
    obtain ⟨hmlo, hmhi⟩ := natLog10_spec ((b + a - 1) / a - 1) hcd1
    have haq : (0:ℚ) < (a:ℚ) := by positivity
    constructor
    · -- 10 ^ (-(m+1)) ≤ a / b  ⟺  b ≤ a * 10 ^ (m+1)
      have hnat : b ≤ a * 10 ^ (natLog10 ((b + a - 1) / a - 1) + 1) := by
        have hcb : (b + a - 1) / a ≤ 10 ^ (natLog10 ((b + a - 1) / a - 1) + 1) := by omega
        calc b ≤ a * ((b + a - 1) / a) := hble
          _ ≤ a * 10 ^ (natLog10 ((b + a - 1) / a - 1) + 1) := Nat.mul_le_mul_left _ hcb
      have hzp : ((10:ℚ)) ^ (-((natLog10 ((b + a - 1) / a - 1) : ℤ) + 1))
          = 1 / ((10:ℚ)) ^ (natLog10 ((b + a - 1) / a - 1) + 1) := by
        rw [zpow_neg, one_div]
        congr 1
        have : ((natLog10 ((b + a - 1) / a - 1) : ℤ) + 1)
            = ((natLog10 ((b + a - 1) / a - 1) + 1 : ℕ) : ℤ) := by push_cast; ring
        rw [this, zpow_natCast]
      rw [hzp, div_le_div_iff (by positivity) hbq]
      calc (1:ℚ) * b = (b:ℚ) := by ring
        _ ≤ (a:ℚ) * ((10:ℚ)) ^ (natLog10 ((b + a - 1) / a - 1) + 1) := by exact_mod_cast hnat
    · -- a / b < 10 ^ (-m)  ⟺  a * 10 ^ m < b
      have hnat : a * 10 ^ natLog10 ((b + a - 1) / a - 1) < b := by
        calc a * 10 ^ natLog10 ((b + a - 1) / a - 1)
            ≤ a * ((b + a - 1) / a - 1) := Nat.mul_le_mul_left _ hmlo
          _ < b := hlt
      have hze : (-((natLog10 ((b + a - 1) / a - 1) : ℤ) + 1) + 1)
          = -(natLog10 ((b + a - 1) / a - 1) : ℤ) := by ring
      rw [hze, zpow_neg, div_lt_iff hbq, zpow_natCast]
      rw [inv_mul_eq_div, lt_div_iff (by positivity)]
      exact_mod_cast hnat
      

theorem parseUnsigned_render_nil (n k : ℕ) :
    parseUnsigned (renderFixedChars n k) = some ((n : ℚ) / ((10 ^ k : ℕ) : ℚ)) := by
  have h := parseUnsigned_render n k [] (by intro c hc; simp at hc)
  rw [List.append_nil] at h
  rw [h, parseExp_nil]

theorem renderFixedChars_cons (n k : ℕ) :
    ∃ c0 rest, renderFixedChars n k = c0 :: rest ∧ c0.isDigit = true := by
  obtain ⟨ids, hids_eq, hids_lt, _, hids_ne⟩ := renderDigits_spec (n / 10 ^ k)
  cases ids with
  | nil => cases hids_ne rfl
  | cons d ds =>
    have hd : d < 10 := hids_lt d (by simp)
    simp only [renderFixedChars, hids_eq]
    by_cases hfds : stripZeros (padLeft (natDigits (n % 10 ^ k)) k) = []
    · rw [if_pos hfds]
      exact ⟨digitChar d, ds.map digitChar, by simp, digitChar_isDigit hd⟩
    · rw [if_neg hfds]
      exact ⟨digitChar d, ds.map digitChar ++
        '.' :: (stripZeros (padLeft (natDigits (n % 10 ^ k)) k)).map digitChar,
        by simp, digitChar_isDigit hd⟩

theorem pow_toNat_cast (e : ℤ) (he : e ≤ 5) :
    (((10 ^ (5 - e).toNat : ℕ)) : ℚ) = (10 : ℚ) ^ ((5 : ℤ) - e) := by
  have h5 : ((5 - e).toNat : ℤ) = 5 - e := Int.toNat_of_nonneg (by omega)
  push_cast
  rw [← zpow_natCast (10 : ℚ) (5 - e).toNat, h5]

theorem div_pow_eq_mul_zpow (n : ℕ) (e : ℤ) (he : e ≤ 5) :
    (n : ℚ) / ((10 ^ (5 - e).toNat : ℕ) : ℚ) = (n : ℚ) * (10 : ℚ) ^ (e - 5) := by
  rw [pow_toNat_cast e he, div_eq_iff (by positivity)]
  rw [mul_assoc, ← zpow_add₀ (by norm_num : (10:ℚ) ≠ 0)]
  simp

theorem parseFloat_fmtG (q : ℚ) : parseFloat (fmtG q) = some (round6 q) := by
  by_cases hq : q = 0
  · subst hq
    decide
  · rcases hp : sig6 q with ⟨n, e⟩
    have hr6 : round6 q = (if q < 0 then (-1 : ℚ) else 1) * (n : ℚ) * (10 : ℚ) ^ (e - 5) := by
      rw [round6, if_neg hq, hp]
    by_cases hrange : -4 ≤ e ∧ e < 6
    · -- fixed-point branch
      have hfmtG : fmtG q = String.mk (if q < 0
          then '-' :: renderFixedChars n (5 - e).toNat
          else renderFixedChars n (5 - e).toNat) := by
        rw [fmtG, if_neg hq, hp]
        simp only [if_pos hrange]
      have hval : (n : ℚ) / ((10 ^ (5 - e).toNat : ℕ) : ℚ) = (n : ℚ) * (10 : ℚ) ^ (e - 5) :=
        div_pow_eq_mul_zpow n e (by omega)
      obtain ⟨c0, rest, hcons, hc0⟩ := renderFixedChars_cons n (5 - e).toNat
      by_cases hneg : q < 0
      · rw [hfmtG, if_pos hneg, parseFloat_mk_neg, parseUnsigned_render_nil, hr6, if_pos hneg]
        simp only [Option.map_some']
        rw [hval]
        exact congrArg some (by ring)
      · rw [hfmtG, if_neg hneg]
        rw [parseFloat_mk_digit _ c0 (by rw [hcons]; simp) hc0]
        rw [parseUnsigned_render_nil, hr6, if_neg hneg, hval]
        exact congrArg some (by ring)
    · -- scientific branch
      have hfmtG : fmtG q = String.mk (if q < 0
          then '-' :: renderSciChars n e
          else renderSciChars n e) := by
        rw [fmtG, if_neg hq, hp]
        simp only [if_neg hrange]
      have htailOK : tailOK ('e' :: expChars e) := by
        intro c hc
        simp at hc
        subst hc
        exact ⟨by decide, by decide⟩
      have hparse : parseUnsigned (renderSciChars n e)
          = some ((n : ℚ) / ((10 ^ 5 : ℕ) : ℚ) * (10 : ℚ) ^ e) := by
        rw [renderSciChars, parseUnsigned_render n 5 _ htailOK, parseExp_sci]
      have hval : (n : ℚ) / ((10 ^ 5 : ℕ) : ℚ) * (10 : ℚ) ^ e = (n : ℚ) * (10 : ℚ) ^ (e - 5) := by
        have h1 : (n : ℚ) / ((10 ^ 5 : ℕ) : ℚ) = (n : ℚ) * (10 : ℚ) ^ ((0 : ℤ) - 5) := by
          have := div_pow_eq_mul_zpow n 0 (by omega)
          simpa using this
        rw [h1, mul_assoc, ← zpow_add₀ (by norm_num : (10:ℚ) ≠ 0)]
        congr 1
        ring
      obtain ⟨c0, rest, hcons, hc0⟩ := renderFixedChars_cons n 5
      have hsci_cons : renderSciChars n e = c0 :: (rest ++ 'e' :: expChars e) := by
        rw [renderSciChars, hcons]
        simp
      by_cases hneg : q < 0
      · rw [hfmtG, if_pos hneg, parseFloat_mk_neg, hparse, hr6, if_pos hneg]
        simp only [Option.map_some']
        rw [hval]
        exact congrArg some (by ring)
      · rw [hfmtG, if_neg hneg]
        rw [parseFloat_mk_digit _ c0 (by rw [hsci_cons]; simp) hc0]
        rw [hparse, hr6, if_neg hneg, hval]
        exact congrArg some (by ring)

/- ---------------------------------------------------------------------------
Behaviour of the read and write paths at the adapter boundary.
--------------------------------------------------------------------------- -/

theorem Property.read_adapter (p : Property) (cmd : String) (h : p.get_command = some cmd)
    (a : Adapter) : (p.read a).1 = { a with queries := a.queries ++ [cmd] } := by
  simp only [Property.read, h, Adapter.query]
  repeat' split
  all_goals rfl

theorem Property.write_adapter (p : Property) (a : Adapter) (v : PyVal) :
    (p.write a v).1.queries = a.queries ∧ (p.write a v).1.configCalls = a.configCalls ∧
      ((p.write a v).1.writes = a.writes ∨ ∃ c, (p.write a v).1.writes = a.writes ++ [c]) := by
  simp only [Property.write, Adapter.write]
  repeat' split
  all_goals simp

theorem clamp_below {lo hi q : ℚ} (hq : q < lo) : max lo (min hi q) = lo :=
  max_eq_left ((min_le_right hi q).trans hq.le)

theorem clamp_above {lo hi q : ℚ} (hlohi : lo ≤ hi) (hq : hi < q) : max lo (min hi q) = hi := by
  rw [min_eq_left hq.le, max_eq_right hlohi]

theorem clamp_id {lo hi q : ℚ} (h1 : lo ≤ q) (h2 : q ≤ hi) : max lo (min hi q) = q := by
  rw [min_eq_right h2, max_eq_right h1]

theorem write_trunc (g cmd d : String) (lo hi : ℚ) (a : Adapter) (q : ℚ) :
    (Instrument.control g cmd d (some .truncatedRange) (some (.range lo hi)) false).write a
      (.num q) = (a.write (formatCommand cmd (fmtG (max lo (min hi q)))), .ok ()) := rfl

theorem write_discrete_invalid (g cmd d : String) (m : List (PyVal × String)) (a : Adapter)
    (v : PyVal) (hv : ∀ e ∈ m, e.1 ≠ v) :
    (Instrument.control g cmd d (some .strictDiscreteSet) (some (.mapping m)) true).write a v
      = (a, .error .ValidationError) := by
  have hany : m.any (fun e => e.1 == v) = false := by
    rw [List.any_eq_false]
    intro e he
    simpa using hv e he
  simp [Property.write, Instrument.control, Validator.apply, strict_discrete_set, hany]

theorem write_discrete_valid (g cmd d : String) (m : List (PyVal × String)) (a : Adapter)
    (v : PyVal) (tok : String) (hv : mapLookup m v = some tok) :
    (Instrument.control g cmd d (some .strictDiscreteSet) (some (.mapping m)) true).write a v
      = (a.write (formatCommand cmd tok), .ok ()) := by
  rcases hfind : m.find? (fun e => e.1 == v) with _ | e0
  · rw [mapLookup, hfind] at hv
    simp at hv
  · have hp := @List.find?_some _ _ _ _ hfind
    have hany : m.any (fun e => e.1 == v) = true :=
      List.any_eq_true.mpr ⟨e0, List.mem_of_find?_eq_some hfind, hp⟩
    simp [Property.write, Instrument.control, Validator.apply, strict_discrete_set, hany,
      mapLookup, hfind, hv]
    rw [mapLookup, hfind] at hv
    simp at hv
    rw [hv]

theorem read_cast_bool (g d : String) (a : Adapter) (x : ℚ)
    (hx : parseFloat (pyStrip (a.respond g)) = some x) :
    (Instrument.measurement g d Cast.bool).read a
      = ({ a with queries := a.queries ++ [g] }, .ok (.bool (decide (x ≠ 0)))) := by
  simp [Property.read, Instrument.measurement, Adapter.query, hx]

theorem read_control_float (g s d : String) (vv : Option Validator) (vals : Option Values)
    (a : Adapter) (x : ℚ) (hx : parseFloat (pyStrip (a.respond g)) = some x) :
    (Instrument.control g s d vv vals false).read a
      = ({ a with queries := a.queries ++ [g] }, .ok (.num x)) := by
  simp [Property.read, Instrument.control, Adapter.query, hx]

/- ---------------------------------------------------------------------------
Helper steps shared by the claim theorems.
--------------------------------------------------------------------------- -/

theorem trunc_claim_step (p : Property) (g cmd d : String) (lo hi : ℚ)
    (hdef : p = Instrument.control g cmd d (some .truncatedRange) (some (.range lo hi)) false)
    (hlohi : lo ≤ hi) :
    ∃ cmd0 lo0 hi0, p.set_command = some cmd0 ∧ p.validator = some .truncatedRange ∧
      p.values = some (.range lo0 hi0) ∧ lo0 ≤ hi0 ∧
      ∀ (a : Adapter) (q : ℚ),
        (q < lo0 → p.write a (.num q) = (a.write (formatCommand cmd0 (fmtG lo0)), .ok ())) ∧
        (hi0 < q → p.write a (.num q) = (a.write (formatCommand cmd0 (fmtG hi0)), .ok ())) ∧
        ∃ w, p.write a (.num q) = (a.write (formatCommand cmd0 (fmtG w)), .ok ()) := by
  subst hdef
  refine ⟨cmd, lo, hi, rfl, rfl, rfl, hlohi, fun a q =>
    ⟨fun h => ?_, fun h => ?_, ⟨max lo (min hi q), write_trunc g cmd d lo hi a q⟩⟩⟩
  · rw [write_trunc, clamp_below h]
  · rw [write_trunc, clamp_above hlohi h]

theorem discrete_claim_step (p : Property) (g cmd d : String) (m : List (PyVal × String))
    (hdef : p = Instrument.control g cmd d (some .strictDiscreteSet) (some (.mapping m)) true) :
    ∃ cmd0 m0, p.set_command = some cmd0 ∧ p.validator = some .strictDiscreteSet ∧
      p.values = some (.mapping m0) ∧ p.map_values = true ∧
      ∀ (a : Adapter) (v : PyVal),
        ((∀ e ∈ m0, e.1 ≠ v) → p.write a v = (a, .error .ValidationError)) ∧
        (∀ tok, mapLookup m0 v = some tok →
          p.write a v = (a.write (formatCommand cmd0 tok), .ok ())) := by
  subst hdef
  exact ⟨cmd, m, rfl, rfl, rfl, rfl, fun a v =>
    ⟨fun h => write_discrete_invalid g cmd d m a v h,
     fun tok htok => write_discrete_valid g cmd d m a v tok htok⟩⟩

theorem bool_cast_step (p : Property) (g d : String)
    (hdef : p = Instrument.measurement g d Cast.bool) :
    ∃ cmd, p.get_command = some cmd ∧ p.cast = Cast.bool ∧
      ∀ a : Adapter,
        (a.respond cmd = "1" → (p.read a).2 = .ok (.bool true)) ∧
        (a.respond cmd = "0" → (p.read a).2 = .ok (.bool false)) := by
  subst hdef
  refine ⟨g, rfl, rfl, fun a => ⟨fun h => ?_, fun h => ?_⟩⟩
  · have h1 : parseFloat (pyStrip (a.respond g)) = some 1 := by rw [h]; decide
    rw [read_cast_bool g d a 1 h1]
    rfl
  · have h0 : parseFloat (pyStrip (a.respond g)) = some 0 := by rw [h]; decide
    rw [read_cast_bool g d a 0 h0]
    rfl

/- ---------------------------------------------------------------------------
The claim theorems.
--------------------------------------------------------------------------- -/

/-- C1: every control property declared with the truncating range validator
(`source_current`, `source_current_range`, `source_voltage`, `source_voltage_range`,
`current_comp`, `current_range`, `voltage_comp`) clamps: writing any value below the
declared minimum results in the minimum being formatted into the write command sent
on the wire, writing any value above the declared maximum sends the maximum, and no
out-of-range numeric write raises an error (every numeric write succeeds, sending
some clamped value). -/
theorem truncated_range_controls_clamp :
    ∀ p ∈ truncatedRangeControls, ∃ cmd lo hi,
      p.set_command = some cmd ∧ p.validator = some .truncatedRange ∧
      p.values = some (.range lo hi) ∧ lo ≤ hi ∧
      ∀ (a : Adapter) (q : ℚ),
        (q < lo → p.write a (.num q) = (a.write (formatCommand cmd (fmtG lo)), .ok ())) ∧
        (hi < q → p.write a (.num q) = (a.write (formatCommand cmd (fmtG hi)), .ok ())) ∧
        ∃ w, p.write a (.num q) = (a.write (formatCommand cmd (fmtG w)), .ok ()) := by
  intro p hp
  simp only [truncatedRangeControls, List.mem_cons, List.not_mem_nil, or_false] at hp
  rcases hp with rfl | rfl | rfl | rfl | rfl | rfl | rfl
  · exact trunc_claim_step _ _ _ _ _ _ rfl (by norm_num)
  · exact trunc_claim_step _ _ _ _ _ _ rfl (by norm_num)
  · exact trunc_claim_step _ _ _ _ _ _ rfl (by norm_num)
  · exact trunc_claim_step _ _ _ _ _ _ rfl (by norm_num)
  · exact trunc_claim_step _ _ _ _ _ _ rfl (by norm_num)
  · exact trunc_claim_step _ _ _ _ _ _ rfl (by norm_num)
  · exact trunc_claim_step _ _ _ _ _ _ rfl (by norm_num)

/-- Witness for C1: at `source_current`, writing `-5` (below the minimum `-3`) sends
`":SOUR:CURR:LEV:IMM:AMPL -3"`, writing `5` (above the maximum `3`) sends
`":SOUR:CURR:LEV:IMM:AMPL 3"` and raises no error. -/
theorem truncated_range_controls_clamp_witness :
    (source_current.write (mock "x") (.num (-5))).1.writes = [":SOUR:CURR:LEV:IMM:AMPL -3"] ∧
    (source_current.write (mock "x") (.num 5)).1.writes = [":SOUR:CURR:LEV:IMM:AMPL 3"] ∧
    (source_current.write (mock "x") (.num 5)).2 = .ok () := by
  obtain ⟨cmd, lo, hi, hset, hval, hvals, hlohi, hw⟩ :=
    truncated_range_controls_clamp source_current (by simp [truncatedRangeControls])
  have hcmd : cmd = ":SOUR:CURR:LEV:IMM:AMPL %g" := by
    simpa [source_current, Instrument.control] using hset.symm
  have hrange : lo = -3 ∧ hi = 3 := by
    have := hvals.symm
    simp [source_current, Instrument.control] at this
    exact ⟨this.1, this.2⟩
  obtain ⟨rfl, rfl⟩ := hrange
  subst hcmd
  have h1 := (hw (mock "x") (-5)).1 (by norm_num)
  have h2 := (hw (mock "x") 5).2.1 (by norm_num)
  refine ⟨?_, ?_, ?_⟩
  · rw [h1]; decide
  · rw [h2]; decide
  · rw [h2]

/-- C2: every control property declared with a discrete value mapping (`source_mode`,
`source_func`, `source_current_autorange`, `source_voltage_autorange`) rejects a
semantic value that is not a key of the mapping with `ValidationError`, sending
nothing to the adapter, and maps a key of the mapping to exactly the mapped wire
token formatted into the write command. -/
theorem discrete_controls_validate :
    ∀ p ∈ discreteControls, ∃ cmd m,
      p.set_command = some cmd ∧ p.validator = some .strictDiscreteSet ∧
      p.values = some (.mapping m) ∧ p.map_values = true ∧
      ∀ (a : Adapter) (v : PyVal),
        ((∀ e ∈ m, e.1 ≠ v) → p.write a v = (a, .error .ValidationError)) ∧
        (∀ tok, mapLookup m v = some tok →
          p.write a v = (a.write (formatCommand cmd tok), .ok ())) := by
  intro p hp
  simp only [discreteControls, List.mem_cons, List.not_mem_nil, or_false] at hp
  rcases hp with rfl | rfl | rfl | rfl
  · exact discrete_claim_step _ _ _ _ _ rfl
  · exact discrete_claim_step _ _ _ _ _ rfl
  · exact discrete_claim_step _ _ _ _ _ rfl
  · exact discrete_claim_step _ _ _ _ _ rfl

/-- Witness for C2: writing `"current"` to `source_mode` sends exactly
`":SOUR:FUNC:MODE CURR"`; writing `"bogus"` raises `ValidationError` and sends
nothing. -/
theorem discrete_controls_validate_witness :
    (source_mode.write (mock "x") (.str "current")).1.writes = [":SOUR:FUNC:MODE CURR"] ∧
    (source_mode.write (mock "x") (.str "current")).2 = .ok () ∧
    source_mode.write (mock "x") (.str "bogus") = (mock "x", .error .ValidationError) := by
  obtain ⟨cmd, m, hset, hval, hvals, hmap, hw⟩ :=
    discrete_controls_validate source_mode (by simp [discreteControls])
  have hcmd : cmd = ":SOUR:FUNC:MODE %s" := by
    simpa [source_mode, Instrument.control] using hset.symm
  have hm : m = [(.str "current", "CURR"), (.str "voltage", "VOLT")] := by
    have := hvals.symm
    simp [source_mode, Instrument.control] at this
    exact this
  subst hcmd
  subst hm
  have hvalid := (hw (mock "x") (.str "current")).2 "CURR" (by decide)
  have hinvalid := (hw (mock "x") (.str "bogus")).1 (by decide)
  refine ⟨?_, ?_, hinvalid⟩
  · rw [hvalid]; decide
  · rw [hvalid]

/-- C3: `enable()` writes exactly `":OUTP 1"` to the adapter (and returns only the
updated adapter — no value); `disable()` writes exactly `":OUTP 0"`; `is_enabled()`
issues exactly one query, the `":OUTP?"` query of the `_status` property, performs
no write, and returns the Python boolean cast of the `_status` read result. -/
theorem enable_disable_is_enabled_spec : ∀ a : Adapter,
    (enable a).writes = a.writes ++ [":OUTP 1"] ∧ (enable a).queries = a.queries ∧
    (enable a).configCalls = a.configCalls ∧
    (disable a).writes = a.writes ++ [":OUTP 0"] ∧ (disable a).queries = a.queries ∧
    (disable a).configCalls = a.configCalls ∧
    _status.get_command = some ":OUTP?" ∧
    (is_enabled a).1.queries = a.queries ++ [":OUTP?"] ∧
    (is_enabled a).1.writes = a.writes ∧
    (is_enabled a).2 = ((_status.read a).2).map (fun v => pythonBool v) := by
  intro a
  have hread := Property.read_adapter _status ":OUTP?" rfl a
  refine ⟨rfl, rfl, rfl, rfl, rfl, rfl, rfl, ?_, ?_, ?_⟩
  · cases hr : (_status.read a).2 with
    | ok v => simp [is_enabled, hr, hread]
    | error e => simp [is_enabled, hr, hread]
  · cases hr : (_status.read a).2 with
    | ok v => simp [is_enabled, hr, hread]
    | error e => simp [is_enabled, hr, hread]
  · cases hr : (_status.read a).2 with
    | ok v => simp [is_enabled, hr, Except.map]
    | error e => simp [is_enabled, hr, Except.map]

/-- C4: the class table binds `source_current_reading` twice (both declarations
query `"READ:SOUR?"`); the second declaration — documented as a voltage readback —
overwrites the first, so the final class dictionary holds exactly one
`source_current_reading` attribute, the second declaration. -/
theorem source_current_reading_overwritten :
    classBody.countP (fun e => e.1 == "source_current_reading") = 2 ∧
    classDict.countP (fun e => e.1 == "source_current_reading") = 1 ∧
    classDict.find? (fun e => e.1 == "source_current_reading")
      = some ("source_current_reading", source_current_reading_declB) ∧
    source_current_reading = source_current_reading_declB ∧
    source_current_reading_declB.docs = " Provides a readback of the sourced voltage. " ∧
    source_current_reading_declA.docs = " Provides a readback of the sourced current. " ∧
    source_current_reading_declA.get_command = some "READ:SOUR?" ∧
    source_current_reading_declB.get_command = some "READ:SOUR?" := by
  refine ⟨?_, ?_, ?_, rfl, rfl, rfl, rfl, rfl⟩ <;> decide

/-- C5: every measurement property declared with `cast=bool` (`source_enabled`,
`current_comp_tipped`, `voltage_comp_tipped`) reads `True` when the adapter response
is `"1"` and `False` when it is `"0"`. -/
theorem bool_cast_measurements_spec :
    ∀ p ∈ boolCastMeasurements, ∃ cmd,
      p.get_command = some cmd ∧ p.cast = Cast.bool ∧
      ∀ a : Adapter,
        (a.respond cmd = "1" → (p.read a).2 = .ok (.bool true)) ∧
        (a.respond cmd = "0" → (p.read a).2 = .ok (.bool false)) := by
  intro p hp
  simp only [boolCastMeasurements, List.mem_cons, List.not_mem_nil, or_false] at hp
  rcases hp with rfl | rfl | rfl
  · exact bool_cast_step _ _ _ rfl
  · exact bool_cast_step _ _ _ rfl
  · exact bool_cast_step _ _ _ rfl

/-- Witness for C5: `source_enabled` read against a mock answering `"1"` returns
`True`; against a mock answering `"0"` it returns `False`. -/
theorem bool_cast_measurements_spec_witness :
    (source_enabled.read (mock "1")).2 = .ok (.bool true) ∧
    (source_enabled.read (mock "0")).2 = .ok (.bool false) := by
  obtain ⟨cmd, hcmd, hcast, hresp⟩ :=
    bool_cast_measurements_spec source_enabled (by simp [boolCastMeasurements])
  have hc : cmd = "OUTPUT?" := by
    simpa [source_enabled, Instrument.measurement] using hcmd.symm
  subst hc
  exact ⟨(hresp (mock "1")).1 rfl, (hresp (mock "0")).2 rfl⟩

theorem roundtrip_claim_step (p : Property) (g cmd d : String) (lo hi : ℚ)
    (hdef : p = Instrument.control g cmd d (some .truncatedRange) (some (.range lo hi)) false) :
    ∃ g0 cmd0 lo0 hi0,
      p.get_command = some g0 ∧ p.set_command = some cmd0 ∧
      p.values = some (.range lo0 hi0) ∧ p.map_values = false ∧
      ∀ (a : Adapter) (v : ℚ), lo0 ≤ v → v ≤ hi0 →
        (p.write a (.num v)).2 = .ok () ∧
        (p.write a (.num v)).1.writes = a.writes ++ [formatCommand cmd0 (fmtG v)] ∧
        (p.write a (.num v)).1.queries = a.queries ∧
        (pyStrip (a.respond g0) = fmtG v →
          (p.read ((p.write a (.num v)).1)).1.queries = a.queries ++ [g0] ∧
          (p.read ((p.write a (.num v)).1)).2 = .ok (.num (round6 v))) := by
  subst hdef
  refine ⟨g, cmd, lo, hi, rfl, rfl, rfl, rfl, fun a v h1 h2 => ?_⟩
  have hclamp : max lo (min hi v) = v := clamp_id h1 h2
  have hbase : (Instrument.control g cmd d (some .truncatedRange)
        (some (.range lo hi)) false).write a (.num v)
      = (a.write (formatCommand cmd (fmtG v)), .ok ()) := by
    rw [write_trunc, hclamp]
  refine ⟨by rw [hbase], by rw [hbase]; rfl, by rw [hbase]; rfl, fun hecho => ?_⟩
  have hrespond : (((Instrument.control g cmd d (some .truncatedRange)
      (some (.range lo hi)) false).write a (.num v)).1).respond = a.respond := by
    rw [hbase]
    rfl
  have hx : parseFloat (pyStrip
      ((((Instrument.control g cmd d (some .truncatedRange)
        (some (.range lo hi)) false).write a (.num v)).1).respond g))
      = some (round6 v) := by
    rw [hrespond, hecho, parseFloat_fmtG]
  have hread := read_control_float g cmd d (some .truncatedRange)
    (some (.range lo hi)) _ _ hx
  constructor
  · rw [hread]
    show (((Instrument.control g cmd d (some .truncatedRange)
        (some (.range lo hi)) false).write a (.num v)).1).queries ++ [g]
      = a.queries ++ [g]
    rw [hbase]
    rfl
  · rw [hread]

/-- C6: round-trip law for every control property without a value mapping — in this
driver exactly the seven truncating-range controls (`source_current`,
`source_current_range`, `source_voltage`, `source_voltage_range`, `current_comp`,
`current_range`, `voltage_comp`): writing an in-range `v` succeeds and sends the
`%g`-formatted `v` without querying; if the stripped mock response to the follow-up
read echoes that formatted value, the read issues exactly one query (its query
command) and returns the float `round6 v` — `v` up to the 6-significant-digit
precision of the `%g` write formatting (`parseFloat_fmtG` identifies the parsed
echo with `round6 v`). -/
theorem no_mapping_controls_roundtrip :
    ∀ p ∈ truncatedRangeControls, ∃ g cmd lo hi,
      p.get_command = some g ∧ p.set_command = some cmd ∧
      p.values = some (.range lo hi) ∧ p.map_values = false ∧
      ∀ (a : Adapter) (v : ℚ), lo ≤ v → v ≤ hi →
        (p.write a (.num v)).2 = .ok () ∧
        (p.write a (.num v)).1.writes = a.writes ++ [formatCommand cmd (fmtG v)] ∧
        (p.write a (.num v)).1.queries = a.queries ∧
        (pyStrip (a.respond g) = fmtG v →
          (p.read ((p.write a (.num v)).1)).1.queries = a.queries ++ [g] ∧
          (p.read ((p.write a (.num v)).1)).2 = .ok (.num (round6 v))) := by
  intro p hp
  simp only [truncatedRangeControls, List.mem_cons, List.not_mem_nil, or_false] at hp
  rcases hp with rfl | rfl | rfl | rfl | rfl | rfl | rfl
  · exact roundtrip_claim_step _ _ _ _ _ _ rfl
  · exact roundtrip_claim_step _ _ _ _ _ _ rfl
  · exact roundtrip_claim_step _ _ _ _ _ _ rfl
  · exact roundtrip_claim_step _ _ _ _ _ _ rfl
  · exact roundtrip_claim_step _ _ _ _ _ _ rfl
  · exact roundtrip_claim_step _ _ _ _ _ _ rfl
  · exact roundtrip_claim_step _ _ _ _ _ _ rfl

/-- Witness for C6: at `source_current`, `v = 2`, with a mock echoing `"2"`, the
readback returns exactly `2` and the write sends `":SOUR:CURR:LEV:IMM:AMPL 2"`. -/
theorem no_mapping_controls_roundtrip_witness :
    (source_current.read ((source_current.write (mock "2") (.num 2)).1)).2 = .ok (.num 2) ∧
    (source_current.write (mock "2") (.num 2)).1.writes = [":SOUR:CURR:LEV:IMM:AMPL 2"] := by
  obtain ⟨g, cmd, lo, hi, hget, hset, hvals, hmap, hw⟩ :=
    no_mapping_controls_roundtrip source_current (by simp [truncatedRangeControls])
  have hg : g = ":SOUR:CURR:LEV:IMM:AMPL?" := by
    simpa [source_current, Instrument.control] using hget.symm
  have hcmd : cmd = ":SOUR:CURR:LEV:IMM:AMPL %g" := by
    simpa [source_current, Instrument.control] using hset.symm
  have hrange : lo = -3 ∧ hi = 3 := by
    have := hvals.symm
    simp [source_current, Instrument.control] at this
    exact ⟨this.1, this.2⟩
  obtain ⟨rfl, rfl⟩ := hrange
  subst hg
  subst hcmd
  have h := hw (mock "2") 2 (by norm_num) (by norm_num)
  have hecho : pyStrip ((mock "2").respond ":SOUR:CURR:LEV:IMM:AMPL?") = fmtG 2 := by decide
  have hs : sig6 2 = (200000, 0) := by decide
  have hr6 : round6 2 = 2 := by
    rw [round6, if_neg (by norm_num : (2:ℚ) ≠ 0), hs]
    norm_num
  constructor
  · rw [(h.2.2.2 hecho).2, hr6]
  · rw [h.2.1]
    decide

/-- C7: construction performs exactly one adapter configuration call — with
`is_binary=False`, `datatype="float32"`, `converter="f"`, `separator=","` — when the
adapter is a `VISAAdapter`, and exactly zero configuration calls (and no other
adapter I/O) otherwise. -/
theorem init_config_spec : ∀ a : Adapter,
    (init a).configCalls = a.configCalls ++ (if a.isVISA then [initConfigCall] else []) ∧
    (init a).configCalls.length = a.configCalls.length + (if a.isVISA then 1 else 0) ∧
    (init a).writes = a.writes ∧ (init a).queries = a.queries ∧
    initConfigCall.is_binary = false ∧ initConfigCall.datatype = "float32" ∧
    initConfigCall.converter = "f" ∧ initConfigCall.separator = "," := by
  intro a
  cases hV : a.isVISA
  · simp [init, hV, initConfigCall]
  · simp [init, hV, Adapter.config, initConfigCall]

/-- C8: every property access and every method of the driver performs at most one
write and at most one query per invocation, and nothing is served from a cache:
every read of a table property issues exactly one fresh adapter query (the log grows
by its query command on every read, whatever the adapter state), writes never
query, `enable`/`disable` write exactly once without querying, `is_enabled` queries
exactly once without writing, and construction performs no write or query. -/
theorem single_io_no_cache :
    (∀ p, p ∈ classBody.map Prod.snd → ∀ a : Adapter,
      (∃ cmd, p.get_command = some cmd ∧
        (p.read a).1.queries = a.queries ++ [cmd] ∧
        (p.read a).1.writes = a.writes ∧
        (p.read a).1.configCalls = a.configCalls) ∧
      (∀ v : PyVal, (p.write a v).1.queries = a.queries ∧
        (p.write a v).1.configCalls = a.configCalls ∧
        ((p.write a v).1.writes = a.writes ∨ ∃ c, (p.write a v).1.writes = a.writes ++ [c]))) ∧
    (∀ a : Adapter,
      (enable a).writes = a.writes ++ [":OUTP 1"] ∧ (enable a).queries = a.queries ∧
      (disable a).writes = a.writes ++ [":OUTP 0"] ∧ (disable a).queries = a.queries ∧
      (is_enabled a).1.queries = a.queries ++ [":OUTP?"] ∧
      (is_enabled a).1.writes = a.writes ∧
      (init a).writes = a.writes ∧ (init a).queries = a.queries) := by
  constructor
  · intro p hp a
    have hsome : ∀ q ∈ classBody.map Prod.snd, q.get_command.isSome = true := by decide
    obtain ⟨cmd, hcmd⟩ := Option.isSome_iff_exists.mp (hsome p hp)
    have hr := Property.read_adapter p cmd hcmd a
    exact ⟨⟨cmd, hcmd, by rw [hr], by rw [hr], by rw [hr]⟩,
      fun v => Property.write_adapter p a v⟩
  · intro a
    have hread := Property.read_adapter _status ":OUTP?" rfl a
    refine ⟨rfl, rfl, rfl, rfl, ?_, ?_, ?_, ?_⟩
    · cases hr : (_status.read a).2 with
      | ok v => simp [is_enabled, hr, hread]
      | error e => simp [is_enabled, hr, hread]
    · cases hr : (_status.read a).2 with
      | ok v => simp [is_enabled, hr, hread]
      | error e => simp [is_enabled, hr, hread]
    · cases hV : a.isVISA <;> simp [init, hV, Adapter.config]
    · cases hV : a.isVISA <;> simp [init, hV, Adapter.config]

/-- Witness for C8: a fresh read of `source_current` against an empty-logged mock
issues exactly its one query and no write. -/
theorem single_io_no_cache_witness :
    (source_current.read (mock "1")).1.queries = [":SOUR:CURR:LEV:IMM:AMPL?"] ∧
    (source_current.read (mock "1")).1.writes = [] := by
  obtain ⟨⟨cmd, hcmd, hq, hw, _⟩, _⟩ :=
    (single_io_no_cache).1 source_current (by decide) (mock "1")
  have hc : cmd = ":SOUR:CURR:LEV:IMM:AMPL?" := by
    simpa [source_current, Instrument.control] using hcmd.symm
  subst hc
  exact ⟨by simpa using hq, by simpa using hw⟩

/-- C9: the class body references `strict_discrete_set` (never imported — only
`truncated_range` is imported from the validators module) and the misspelled
`Insturment`; evaluating the class body therefore raises `NameError` (at
`strict_discrete_set`, the first undefined lookup) at module import time, before
any binding of the class is produced — so before any driver instance can exist. -/
theorem class_body_name_error :
    evalClassBody moduleEnv classBodyReferences = .error "strict_discrete_set" ∧
    moduleEnv.contains "strict_discrete_set" = false ∧
    moduleEnv.contains "Insturment" = false ∧
    (classBodyReferences.map (fun e => e.2)).join.contains "strict_discrete_set" = true ∧
    (classBodyReferences.map (fun e => e.2)).join.contains "Insturment" = true ∧
    importedNames.contains "truncated_range" = true := by
  refine ⟨?_, ?_, ?_, ?_, ?_, ?_⟩ <;> decide

/-- C10: `voltage_comp` is the same descriptor as `current_comp` (both control the
`:SENS:CURR:PROT` commands with the truncating range `[-3, 3]`) and
`voltage_comp_tipped` is the same descriptor as `current_comp_tipped` (both query
`SENS:CURR:PROT:TRIP?` with the bool cast), so reading or writing the voltage
variant behaves exactly like the current variant on every adapter state and value —
no voltage-compliance command is ever sent. -/
theorem voltage_comp_duplicates_current_comp :
    voltage_comp = current_comp ∧
    voltage_comp_tipped = current_comp_tipped ∧
    (∀ a : Adapter, voltage_comp.read a = current_comp.read a) ∧
    (∀ (a : Adapter) (v : PyVal), voltage_comp.write a v = current_comp.write a v) ∧
    (∀ a : Adapter, voltage_comp_tipped.read a = current_comp_tipped.read a) ∧
    voltage_comp.get_command = some ":SENS:CURR:PROT?" ∧
    voltage_comp.set_command = some ":SENS:CURR:PROT %g" ∧
    voltage_comp.validator = some .truncatedRange ∧
    voltage_comp.values = some (.range (-3) 3) ∧
    voltage_comp_tipped.get_command = some "SENS:CURR:PROT:TRIP?" ∧
    voltage_comp_tipped.cast = Cast.bool :=
  ⟨rfl, rfl, fun _ => rfl, fun _ _ => rfl, fun _ => rfl, rfl, rfl, rfl, rfl, rfl, rfl⟩
end KeysightB2961A
